import Mathlib

/-!
Verification development for the Traffic-AutoLabel orchestration core.

Shallow embedding of the retry/backoff executor
(`src/glm_labeling/utils/retry.py`), the task data model
(`src/glm_labeling/dashboard/models.py`), the worker-pool batch processor
(`src/glm_labeling/core/parallel.py`), the labeling engine and task manager
(`src/glm_labeling/dashboard/engine.py`, `task_manager.py`) and the
bounded-concurrency async processor
(`src/scripts/video_to_dataset_async.py`), together with proofs and
refutations of the specified properties.
-/

namespace GLMLabeling

/-! ## Retry/backoff executor (`glm_labeling/utils/retry.py`) -/

/-- Model of a Python exception as far as `retry_api_call` inspects it:
the lowercased `str(e)`, the optional `status_code` attribute, the optional
`e.response.status_code` attribute, and the parsed value of the
`Retry-After` response header (`none` when the header is absent, empty or
unparseable; `float` values are modelled exactly as rationals). -/
structure ApiError where
  msg : String
  status_code : Option Int := none
  response_status_code : Option Int := none
  retry_after : Option ℚ := none
deriving DecidableEq, Repr

/-- Substring test, modelling the Python expression `pat in s`. -/
def strContains (s pat : String) : Bool :=
  decide (pat.data <:+: s.data)

/-- Model of `_is_rate_limit_error` (retry.py lines 122-134): message
contains one of the rate-limit markers, or a 429 status code on the
exception or on its response. -/
def isRateLimitError (e : ApiError) : Bool :=
  strContains e.msg "429" || strContains e.msg "rate limit" ||
    strContains e.msg "too many requests" ||
  e.status_code == some 429 ||
  e.response_status_code == some 429

/-- Model of `_get_retry_after` (retry.py lines 137-146): the parsed
`Retry-After` header, `none` when absent or unparseable.  Note that a
header value of `"0"` parses to `0.0` and is returned, not dropped. -/
def getRetryAfter (e : ApiError) : Option ℚ :=
  e.retry_after

/-- Python boolean coercion of a `float-or-None` in `a or b`: `None` and
`0.0` are falsy (so `b` is used), any other float — including negative
floats — is truthy. -/
def pyOrFloat (a : Option ℚ) (b : ℚ) : ℚ :=
  match a with
  | none => b
  | some v => if v = 0 then b else v

/-- Outcome of a `retry_api_call` run.  `raisedNone` models
`raise last_exception` when the loop body never ran (`max_retries = 0`,
`last_exception` is still `None`); `sleepValueError` models the
`ValueError` raised by `time.sleep` on a negative duration, which escapes
the retry loop. -/
inductive RetryResult (α : Type) where
  | ok (a : α)
  | raised (e : ApiError)
  | raisedNone
  | sleepValueError (t : ℚ)
deriving DecidableEq, Repr

/-- Observable trace of one `retry_api_call` run: final outcome, number of
invocations of the operation, the arguments passed to the `on_retry`
callback (attempt number and error, in order), and the durations passed to
`time.sleep` (in order). -/
structure RetryTrace (α : Type) where
  result : RetryResult α
  calls : Nat
  onRetryArgs : List (Nat × ApiError)
  waits : List ℚ
deriving DecidableEq, Repr

/-- Wait computed before the next attempt when an attempt fails with `e`
while the current delay is `cd` (retry.py lines 106-116): for a rate-limit
error, `_get_retry_after(e) or (current_delay * 2)`; otherwise
`current_delay`. -/
def waitAfter (e : ApiError) (cd : ℚ) : ℚ :=
  if isRateLimitError e then pyOrFloat (getRetryAfter e) (cd * 2) else cd

/-- Loop body of `retry_api_call` (retry.py lines 100-119).  `fuel` is the
number of loop iterations still to run (`max_retries - attempt`),
`attempt` the 0-based attempt index, `cd` the mutable `current_delay`.
The operation is modelled as a function from the attempt index to the
outcome of invoking it at that attempt. -/
def retryApiCallAux (op : Nat → Except ApiError α) (backoff : ℚ) :
    Nat → Nat → ℚ → RetryTrace α
  | 0, _, _ => ⟨.raisedNone, 0, [], []⟩
  | fuel + 1, attempt, cd =>
    match op attempt with
    | .ok a => ⟨.ok a, 1, [], []⟩
    | .error e =>
      if fuel = 0 then
        ⟨.raised e, 1, [], []⟩
      else
        let w := waitAfter e cd
        if w < 0 then
          ⟨.sleepValueError w, 1, [(attempt + 1, e)], [w]⟩
        else
          let rest := retryApiCallAux op backoff fuel (attempt + 1) (cd * backoff)
          ⟨rest.result, rest.calls + 1, (attempt + 1, e) :: rest.onRetryArgs,
            w :: rest.waits⟩

/-- Model of `retry_api_call(func, max_retries, delay, backoff_factor,
on_retry)` (retry.py lines 69-119), with the callback always supplied. -/
def retryApiCall (op : Nat → Except ApiError α) (maxRetries : Nat)
    (delay backoff : ℚ) : RetryTrace α :=
  retryApiCallAux op backoff maxRetries 0 delay

/-- Errors whose retry-after hint, if any, is nonnegative.  Under this
condition no computed wait is negative, so `time.sleep` never raises. -/
def hintNonneg (e : ApiError) : Prop :=
  ∀ v, e.retry_after = some v → 0 ≤ v

theorem waitAfter_nonneg (e : ApiError) (cd : ℚ) (hcd : 0 ≤ cd)
    (he : hintNonneg e) : 0 ≤ waitAfter e cd := by
  unfold waitAfter pyOrFloat getRetryAfter
  split
  · cases hra : e.retry_after with
    | none => simpa [hra] using by positivity
    | some v =>
      simp only [hra]
      split
      · positivity
      · exact he v hra
  · exact hcd

theorem retryApiCallAux_ok (op : Nat → Except ApiError α) (backoff : ℚ)
    (fuel attempt : Nat) (cd : ℚ) (a : α) (h : op attempt = .ok a) :
    retryApiCallAux op backoff (fuel + 1) attempt cd = ⟨.ok a, 1, [], []⟩ := by
  simp only [retryApiCallAux, h]

theorem retryApiCallAux_last (op : Nat → Except ApiError α) (backoff : ℚ)
    (attempt : Nat) (cd : ℚ) (e : ApiError) (h : op attempt = .error e) :
    retryApiCallAux op backoff 1 attempt cd = ⟨.raised e, 1, [], []⟩ := by
  simp only [retryApiCallAux, h]
  rfl

theorem retryApiCallAux_step (op : Nat → Except ApiError α) (backoff : ℚ)
    (fuel attempt : Nat) (cd : ℚ) (e : ApiError) (h : op attempt = .error e)
    (hfuel : fuel ≠ 0) (hw : ¬ waitAfter e cd < 0) :
    retryApiCallAux op backoff (fuel + 1) attempt cd =
      ⟨(retryApiCallAux op backoff fuel (attempt + 1) (cd * backoff)).result,
        (retryApiCallAux op backoff fuel (attempt + 1) (cd * backoff)).calls + 1,
        (attempt + 1, e) ::
          (retryApiCallAux op backoff fuel (attempt + 1) (cd * backoff)).onRetryArgs,
        waitAfter e cd ::
          (retryApiCallAux op backoff fuel (attempt + 1) (cd * backoff)).waits⟩ := by
  simp only [retryApiCallAux, h]
  rw [if_neg hfuel, if_neg hw]

theorem retryApiCallAux_sleepErr (op : Nat → Except ApiError α) (backoff : ℚ)
    (fuel attempt : Nat) (cd : ℚ) (e : ApiError) (h : op attempt = .error e)
    (hfuel : fuel ≠ 0) (hw : waitAfter e cd < 0) :
    retryApiCallAux op backoff (fuel + 1) attempt cd =
      ⟨.sleepValueError (waitAfter e cd), 1, [(attempt + 1, e)],
        [waitAfter e cd]⟩ := by
  simp only [retryApiCallAux, h]
  rw [if_neg hfuel, if_pos hw]

theorem retryApiCallAux_success (op : Nat → Except ApiError α) (backoff : ℚ)
    (errs : Nat → ApiError) (a : α) (hb : 0 ≤ backoff) :
    ∀ (k fuel attempt : Nat) (cd : ℚ), 0 ≤ cd → k < fuel →
    (∀ j, j < k → op (attempt + j) = .error (errs (attempt + j))) →
    (∀ j, j < k → hintNonneg (errs (attempt + j))) →
    op (attempt + k) = .ok a →
    retryApiCallAux op backoff fuel attempt cd =
      ⟨.ok a, k + 1,
        (List.range k).map (fun j => (attempt + j + 1, errs (attempt + j))),
        (List.range k).map (fun j => waitAfter (errs (attempt + j)) (cd * backoff ^ j))⟩ := by
  intro k
  induction k with
  | zero =>
    intro fuel attempt cd _ hk _ _ hok
    obtain ⟨f, rfl⟩ := Nat.exists_eq_add_of_lt hk
    simp only [Nat.add_zero] at hok
    rw [Nat.zero_add, retryApiCallAux_ok op backoff f attempt cd a hok]
    simp
  | succ k ih =>
    intro fuel attempt cd hcd hk hfail hhint hok
    obtain ⟨f, rfl⟩ := Nat.exists_eq_add_of_lt hk
    have hfuel : k + 1 + f + 1 = (k + f + 1) + 1 := by omega
    rw [hfuel]
    have h0 : op attempt = .error (errs attempt) := by
      simpa using hfail 0 (Nat.succ_pos k)
    have h0h : hintNonneg (errs attempt) := by
      simpa using hhint 0 (Nat.succ_pos k)
    have hwn : 0 ≤ waitAfter (errs attempt) cd := waitAfter_nonneg _ _ hcd h0h
    have hrest := ih (k + f + 1) (attempt + 1) (cd * backoff)
      (mul_nonneg hcd hb) (by omega)
      (fun j hj => by
        have := hfail (j + 1) (by omega)
        simpa [Nat.add_assoc, Nat.add_comm 1 j] using this)
      (fun j hj => by
        have := hhint (j + 1) (by omega)
        simpa [Nat.add_assoc, Nat.add_comm 1 j] using this)
      (by simpa [Nat.add_assoc, Nat.add_comm 1 k] using hok)
    rw [retryApiCallAux_step op backoff (k + f + 1) attempt cd (errs attempt) h0
        (by omega) (not_lt.mpr hwn), hrest]
    simp only [RetryTrace.mk.injEq]
    refine ⟨trivial, trivial, ?_, ?_⟩
    · rw [List.range_succ_eq_map, List.map_cons, List.map_map]
      refine congrArg₂ List.cons (by simp) ?_
      refine List.map_congr_left ?_
      intro j _
      simp only [Function.comp]
      have h1 : attempt + 1 + j = attempt + j.succ := by omega
      rw [h1]
    · rw [List.range_succ_eq_map, List.map_cons, List.map_map]
      refine congrArg₂ List.cons (by simp) ?_
      refine List.map_congr_left ?_
      intro j _
      simp only [Function.comp]
      have h1 : attempt + 1 + j = attempt + j.succ := by omega
      have h2 : cd * backoff * backoff ^ j = cd * backoff ^ j.succ := by
        rw [pow_succ]; ring
      rw [h1, h2]

theorem retryApiCallAux_allFail (op : Nat → Except ApiError α) (backoff : ℚ)
    (errs : Nat → ApiError) (hb : 0 ≤ backoff)
    (hfail : ∀ j, op j = .error (errs j)) (hhint : ∀ j, hintNonneg (errs j)) :
    ∀ (fuel attempt : Nat) (cd : ℚ), 0 ≤ cd → 1 ≤ fuel →
    (retryApiCallAux op backoff fuel attempt cd).result =
        .raised (errs (attempt + fuel - 1)) ∧
    (retryApiCallAux op backoff fuel attempt cd).calls = fuel := by
  intro fuel
  induction fuel with
  | zero => intro attempt cd _ h; omega
  | succ f ih =>
    intro attempt cd hcd _
    rcases Nat.eq_zero_or_pos f with hf | hf
    · subst hf
      rw [retryApiCallAux_last op backoff attempt cd (errs attempt) (hfail attempt)]
      exact ⟨rfl, rfl⟩
    · have h0 := hfail attempt
      have hwn : 0 ≤ waitAfter (errs attempt) cd :=
        waitAfter_nonneg _ _ hcd (hhint attempt)
      have hrest := ih (attempt + 1) (cd * backoff) (mul_nonneg hcd hb) hf
      rw [retryApiCallAux_step op backoff f attempt cd (errs attempt) h0
          (by omega) (not_lt.mpr hwn)]
      refine ⟨?_, ?_⟩
      · have : attempt + 1 + f - 1 = attempt + (f + 1) - 1 := by omega
        simpa [this] using hrest.1
      · simpa using hrest.2

/-- C5: for every operation passed to `retry_api_call`: failing exactly
`k < max_retries` times then succeeding returns the successful result with
exactly `k` `on_retry` invocations, `k + 1` invocations of the operation
and no error; always failing invokes the operation exactly `max_retries`
times and re-raises the last error; `max_retries = 1` performs exactly one
attempt with no wait; on success no further wait is recorded. -/
theorem retry_api_call_contract {α : Type} (op : Nat → Except ApiError α)
    (errs : Nat → ApiError) (a : α) (maxRetries k : Nat) (delay backoff : ℚ)
    (hd : 0 ≤ delay) (hb : 0 ≤ backoff) (hhint : ∀ j, hintNonneg (errs j)) :
    (k < maxRetries → (∀ j, j < k → op j = .error (errs j)) → op k = .ok a →
      (retryApiCall op maxRetries delay backoff).result = .ok a ∧
      (retryApiCall op maxRetries delay backoff).onRetryArgs.length = k ∧
      (retryApiCall op maxRetries delay backoff).calls = k + 1 ∧
      (retryApiCall op maxRetries delay backoff).waits.length = k) ∧
    ((∀ j, op j = .error (errs j)) → 1 ≤ maxRetries →
      (retryApiCall op maxRetries delay backoff).calls = maxRetries ∧
      (retryApiCall op maxRetries delay backoff).result =
        .raised (errs (maxRetries - 1))) ∧
    (maxRetries = 1 →
      (retryApiCall op maxRetries delay backoff).calls = 1 ∧
      (retryApiCall op maxRetries delay backoff).waits = []) := by
  refine ⟨?_, ?_, ?_⟩
  · intro hk hfail hok
    have h := retryApiCallAux_success op backoff errs a hb k maxRetries 0 delay hd hk
      (fun j hj => by simpa using hfail j hj)
      (fun j hj => by simpa using hhint j)
      (by simpa using hok)
    rw [retryApiCall, h]
    simp
  · intro hfail h1
    have h := retryApiCallAux_allFail op backoff errs hb hfail (fun j => hhint j)
      maxRetries 0 delay hd h1
    rw [retryApiCall]
    exact ⟨h.2, by simpa using h.1⟩
  · rintro rfl
    rw [retryApiCall]
    cases hop : op 0 with
    | ok b => rw [show (1 : Nat) = 0 + 1 from rfl, retryApiCallAux_ok op backoff 0 0 delay b hop]; exact ⟨rfl, rfl⟩
    | error e => rw [retryApiCallAux_last op backoff 0 delay e hop]; exact ⟨rfl, rfl⟩

/-- Error used by the witness for C5: a plain failure with no hint. -/
def w5err : ApiError := ⟨"boom", none, none, none⟩

/-- Operation used by the witness for C5: fails once, then succeeds. -/
def w5op : Nat → Except ApiError Nat :=
  fun n => if n = 0 then .error w5err else .ok 7

theorem retry_api_call_contract_witness :
    (retryApiCall w5op 3 2 2).result = .ok 7 ∧
    (retryApiCall w5op 3 2 2).onRetryArgs.length = 1 ∧
    (retryApiCall w5op 3 2 2).calls = 2 ∧
    (retryApiCall w5op 3 2 2).waits.length = 1 :=
  (retry_api_call_contract w5op (fun _ => w5err) 7 3 1 2 2 (by norm_num)
      (by norm_num) (fun _ v h => by simp [w5err] at h)).1
    (by norm_num)
    (fun j hj => by
      have hj0 : j = 0 := by omega
      subst hj0
      rfl)
    rfl

/-- C4 (amended): in a run of `retry_api_call` whose first `k` attempts
fail with errors carrying nonnegative hints and whose attempt `k`
succeeds (`k < max_retries`), the wait before attempt `j + 1` is: for a
rate-limit failure, the retry-after hint itself when present and nonzero,
and `(delay * backoff_factor ^ j) * 2` otherwise; for every other failure,
`delay * backoff_factor ^ j`.  The code does not take the maximum of the
hint and `delay * 2` as the claim states. -/
theorem retry_wait_schedule {α : Type} (op : Nat → Except ApiError α)
    (errs : Nat → ApiError) (a : α) (maxRetries k : Nat) (delay backoff : ℚ)
    (hd : 0 ≤ delay) (hb : 0 ≤ backoff)
    (hk : k < maxRetries) (hfail : ∀ j, j < k → op j = .error (errs j))
    (hhint : ∀ j, j < k → hintNonneg (errs j)) (hok : op k = .ok a) :
    (retryApiCall op maxRetries delay backoff).waits =
      (List.range k).map (fun j =>
        if isRateLimitError (errs j) then
          pyOrFloat (getRetryAfter (errs j)) (delay * backoff ^ j * 2)
        else delay * backoff ^ j) := by
  have h := retryApiCallAux_success op backoff errs a hb k maxRetries 0 delay hd hk
    (fun j hj => by simpa using hfail j hj)
    (fun j hj => by simpa using hhint j hj)
    (by simpa using hok)
  rw [retryApiCall, h]
  simp [waitAfter]

/-- Error used by the witness for C4: rate-limited with hint 1/2. -/
def w4err : ApiError := ⟨"", some 429, none, some (1 / 2)⟩

/-- Operation used by the witness for C4: one rate-limit failure, then ok. -/
def w4op : Nat → Except ApiError Nat :=
  fun n => if n = 0 then .error w4err else .ok 1

theorem retry_wait_schedule_witness :
    (retryApiCall w4op 3 2 2).waits =
      (List.range 1).map (fun j =>
        if isRateLimitError w4err then
          pyOrFloat (getRetryAfter w4err) (2 * 2 ^ j * 2)
        else 2 * 2 ^ j) :=
  retry_wait_schedule w4op (fun _ => w4err) 1 3 1 2 2 (by norm_num) (by norm_num)
    (by norm_num)
    (fun j hj => by
      have hj0 : j = 0 := by omega
      subst hj0
      rfl)
    (fun j hj v h => by
      have hv : (1 : ℚ) / 2 = v := by simpa [w4err] using h
      rw [← hv]
      norm_num)
    rfl

/-- Rate-limited error with a small positive retry-after hint, used to
refute the claimed `max(delay * 2, hint)` wait. -/
def c4err : ApiError := ⟨"", some 429, none, some 1⟩

/-- Operation that always fails with `c4err`. -/
def c4op : Nat → Except ApiError Unit := fun _ => .error c4err

/-- C4 counterexample: with `delay = 2` and a rate-limit failure carrying
retry-after hint 1, the recorded wait is 1, not
`max(delay * 2, hint) = 4` as the claim states. -/
theorem retry_wait_not_max :
    (retryApiCall c4op 2 2 2).waits = [1] ∧
    (retryApiCall c4op 2 2 2).waits ≠ [max ((2 : ℚ) * 2) 1] := by
  constructor
  · decide
  · have h4 : max ((2 : ℚ) * 2) 1 = 4 := by norm_num
    rw [h4]
    decide

/-- C9 (amended): when a rate-limit failure occurs with attempts
remaining, a retry-after hint of exactly zero is treated as absent (the
wait falls back to `current_delay * 2`), but a negative hint is not: it is
passed to `time.sleep`, which raises `ValueError` and aborts the retry
loop. -/
theorem retry_zero_or_negative_hint {α : Type} (op : Nat → Except ApiError α)
    (e : ApiError) (maxRetries : Nat) (delay backoff : ℚ)
    (h2 : 2 ≤ maxRetries) (hop : op 0 = .error e)
    (hrl : isRateLimitError e = true) :
    (e.retry_after = some 0 →
      (retryApiCall op maxRetries delay backoff).waits.head? =
        some (delay * 2)) ∧
    (∀ v, e.retry_after = some v → v < 0 →
      (retryApiCall op maxRetries delay backoff).result = .sleepValueError v ∧
      (retryApiCall op maxRetries delay backoff).waits = [v]) := by
  obtain ⟨m, rfl⟩ : ∃ m, maxRetries = m + 2 :=
    ⟨maxRetries - 2, by omega⟩
  constructor
  · intro h0
    have hw : waitAfter e delay = delay * 2 := by
      simp [waitAfter, hrl, pyOrFloat, getRetryAfter, h0]
    rw [retryApiCall, show m + 2 = (m + 1) + 1 from rfl]
    by_cases hneg : waitAfter e delay < 0
    · rw [retryApiCallAux_sleepErr op backoff (m + 1) 0 delay e hop (by omega) hneg]
      simp [hw]
    · rw [retryApiCallAux_step op backoff (m + 1) 0 delay e hop (by omega) hneg]
      simp [hw]
  · intro v hv hvneg
    have hw : waitAfter e delay = v := by
      have hvne : ¬ v = 0 := by intro h; rw [h] at hvneg; exact absurd hvneg (by norm_num)
      simp [waitAfter, hrl, pyOrFloat, getRetryAfter, hv, hvne]
    rw [retryApiCall, show m + 2 = (m + 1) + 1 from rfl]
    rw [retryApiCallAux_sleepErr op backoff (m + 1) 0 delay e hop (by omega)
      (by rw [hw]; exact hvneg)]
    exact ⟨by rw [hw], by rw [hw]⟩

/-- Rate-limited error with retry-after hint zero, for the C9 witness. -/
def w9err : ApiError := ⟨"", some 429, none, some 0⟩

/-- Operation that always fails with `w9err`. -/
def w9op : Nat → Except ApiError Unit := fun _ => .error w9err

theorem retry_zero_or_negative_hint_witness :
    (retryApiCall w9op 3 2 2).waits.head? = some (2 * 2) :=
  (retry_zero_or_negative_hint w9op w9err 3 2 2 (by norm_num) rfl (by decide)).1 rfl

/-- Rate-limited error with a negative retry-after hint. -/
def c9err : ApiError := ⟨"", some 429, none, some (-3)⟩

/-- Operation that always fails with `c9err`. -/
def c9op : Nat → Except ApiError Unit := fun _ => .error c9err

/-- C9 counterexample: a negative retry-after hint (-3) is not treated as
absent: the wait passed to `time.sleep` is -3 (neither the non-rate-limit
backoff value 2 nor the rate-limit fallback 4), and the sleep raises.  So
the call does attempt to wait a negative duration. -/
theorem retry_negative_hint_used :
    (retryApiCall c9op 3 2 2).waits = [-3] ∧
    (retryApiCall c9op 3 2 2).result = .sleepValueError (-3) ∧
    (retryApiCall c9op 3 2 2).waits ≠ [2] ∧
    (retryApiCall c9op 3 2 2).waits ≠ [4] ∧
    ¬ (∀ w ∈ (retryApiCall c9op 3 2 2).waits, 0 ≤ w) := by
  have hwaits : (retryApiCall c9op 3 2 2).waits = [-3] := by decide
  refine ⟨hwaits, by decide, by decide, by decide, ?_⟩
  intro h
  have := h (-3) (by rw [hwaits]; simp)
  norm_num at this

/-! ## Task data model (`glm_labeling/dashboard/models.py`) -/

/-- Model of the `TaskStatus` enumeration (models.py lines 12-21). -/
inductive TaskStatus where
  | PENDING
  | EXTRACTING
  | RUNNING
  | VISUALIZING
  | PACKAGING
  | PAUSED
  | COMPLETED
  | FAILED
deriving DecidableEq, Repr

/-- Model of the `TaskMode` enumeration (models.py lines 24-27). -/
inductive TaskMode where
  | IMAGES
  | VIDEO
deriving DecidableEq, Repr

/-- Fields of the `Task` dataclass (models.py lines 138-183) read by the
`progress` property; Python floats are modelled as exact rationals. -/
structure Task where
  status : TaskStatus
  mode : TaskMode
  total_frames : Nat
  completed_frames : Nat
  failed_frames : Nat
  extract_progress : ℚ
  label_progress : ℚ
  visualize_progress : ℚ
deriving DecidableEq, Repr

/-- Model of the `Task.progress` property (models.py lines 186-200). -/
def Task.progress (t : Task) : ℚ :=
  if t.mode = TaskMode.IMAGES then
    if t.total_frames = 0 then 0
    else ((t.completed_frames : ℚ) + t.failed_frames) / t.total_frames
  else
    t.extract_progress * 0.2 + t.label_progress * 0.6 +
      t.visualize_progress * 0.15 +
      (if t.status = TaskStatus.COMPLETED then 1 else 0) * 0.05

/-- C6: in VIDEO mode overall progress is the weighted sum
`extract*0.2 + label*0.6 + visualize*0.15 + (1 if COMPLETED else 0)*0.05`;
in IMAGES mode with at least one item it is
`(completed_items + failed_items) / total_items`. -/
theorem task_progress_formula (t : Task) :
    (t.mode = TaskMode.VIDEO →
      t.progress = t.extract_progress * 0.2 + t.label_progress * 0.6 +
        t.visualize_progress * 0.15 +
        (if t.status = TaskStatus.COMPLETED then 1 else 0) * 0.05) ∧
    (t.mode = TaskMode.IMAGES → 0 < t.total_frames →
      t.progress = ((t.completed_frames : ℚ) + t.failed_frames) / t.total_frames) := by
  constructor
  · intro hv
    rw [Task.progress, if_neg (by rw [hv]; intro h; cases h)]
  · intro hi h0
    rw [Task.progress, if_pos hi, if_neg (by omega)]

/-- Concrete VIDEO-mode task for the C6 witness. -/
def w6video : Task := ⟨.RUNNING, .VIDEO, 10, 3, 1, 1, 1 / 2, 0⟩

/-- Concrete IMAGES-mode task for the C6 witness. -/
def w6images : Task := ⟨.RUNNING, .IMAGES, 4, 2, 1, 0, 0, 0⟩

theorem task_progress_formula_witness :
    (w6video.progress = w6video.extract_progress * 0.2 +
      w6video.label_progress * 0.6 + w6video.visualize_progress * 0.15 +
      (if w6video.status = TaskStatus.COMPLETED then 1 else 0) * 0.05) ∧
    (0 < w6images.total_frames ∧
      w6images.progress =
        ((w6images.completed_frames : ℚ) + w6images.failed_frames) /
          w6images.total_frames) :=
  ⟨(task_progress_formula w6video).1 rfl,
    by norm_num [w6images],
    (task_progress_formula w6images).2 rfl (by norm_num [w6images])⟩

/-- C10: reading `progress` on an IMAGES-mode task with zero items
returns 0 rather than dividing by zero. -/
theorem task_progress_zero_items_safe (t : Task)
    (hm : t.mode = TaskMode.IMAGES) (h0 : t.total_frames = 0) :
    t.progress = 0 := by
  rw [Task.progress, if_pos hm, if_pos h0]

/-- Fresh IMAGES-mode task with no items yet, for the C10 witness. -/
def w10task : Task := ⟨.PENDING, .IMAGES, 0, 0, 0, 0, 0, 0⟩

theorem task_progress_zero_items_safe_witness : w10task.progress = 0 :=
  task_progress_zero_items_safe w10task rfl rfl

/-! ## Worker-pool batch processor (`glm_labeling/core/parallel.py`) -/

/-- Final path component: the characters after the last '/', modelling
`pathlib.Path(p).name` for the plain relative paths this code handles. -/
def lastComponent (cs : List Char) : List Char :=
  cs.foldl (fun acc c => if c = '/' then [] else acc ++ [c]) []

/-- Drop the final extension of a file name, modelling `pathlib`'s stem:
the name up to its last '.', provided that dot is neither the first nor
the last character; otherwise the name unchanged. -/
def dropLastExt (cs : List Char) : List Char :=
  match cs.reverse.findIdx? (fun c => c = '.') with
  | none => cs
  | some j =>
    if j = 0 ∨ j = cs.length - 1 then cs else cs.take (cs.length - 1 - j)

/-- Model of `pathlib.Path(p).stem`. -/
def pyStem (p : String) : String :=
  ⟨dropLastExt (lastComponent p.data)⟩

/-- Expected output record for an item, `f"{Path(path).stem}.json"`
(parallel.py lines 232-233). -/
def jsonName (p : String) : String :=
  pyStem p ++ ".json"

/-- Model of `ParallelProcessor._filter_processed` (parallel.py lines
211-238): keep exactly the items whose expected output record does not
already exist in the output directory.  The output directory is modelled
as the finite set of file names it contains. -/
def filterProcessed (files : Finset String) (image_paths : List String) :
    List String :=
  image_paths.filter (fun p => decide (jsonName p ∉ files))

/-- Aggregate summary returned by `process_batch` (parallel.py lines
93-160).  A field of `none` models a key that is absent from the returned
dictionary on that code path. -/
structure BatchSummary where
  success : Nat
  failed : Nat
  total_objects : Nat
  skipped : Option Nat
  elapsed_seconds : Option ℚ
  per_image_seconds : Option ℚ
deriving DecidableEq, Repr

/-- Model of `ParallelProcessor.process_batch` with `resume=True`
(parallel.py lines 62-160).  The opaque collaborator is deterministic:
`succ p` tells whether processing item `p` succeeds, `objCount p` how many
detections it returns; on success the record `jsonName p` is persisted.
`t` is the measured wall-clock duration of the processing loop.  Returns
the summary and the set of files in the output directory afterwards. -/
def processBatch (succ : String → Bool) (objCount : String → Nat)
    (files : Finset String) (image_paths : List String) (t : ℚ) :
    BatchSummary × Finset String :=
  let todo := filterProcessed files image_paths
  let skipped := image_paths.length - todo.length
  if todo = [] then
    (⟨0, 0, 0, some skipped, none, none⟩, files)
  else
    let done := todo.filter succ
    (⟨done.length, (todo.filter (fun p => !succ p)).length,
        (done.map objCount).sum, none, some t,
        some (if todo = [] then 0 else t / todo.length)⟩,
      files ∪ (done.map jsonName).toFinset)

theorem filter_mem_of_sublist {α : Type} [DecidableEq α] {l₁ l₂ : List α}
    (h : List.Sublist l₁ l₂) (hnd : l₂.Nodup) :
    l₂.filter (fun a => decide (a ∈ l₁)) = l₁ := by
  induction h with
  | slnil => rfl
  | @cons l₁ l₂ a h ih =>
    have hnd2 := List.nodup_cons.mp hnd
    have ha : a ∉ l₁ := fun hm => hnd2.1 (h.subset hm)
    simp only [List.filter_cons, ha, decide_eq_true_eq, if_neg]
    exact ih hnd2.2
  | @cons₂ l₁ l₂ a h ih =>
    have hnd2 := List.nodup_cons.mp hnd
    rw [List.filter_cons, if_pos (by simp)]
    have hcong : ∀ x ∈ l₂, decide (x ∈ a :: l₁) = decide (x ∈ l₁) := by
      intro x hx
      have hxa : ¬ x = a := fun he => hnd2.1 (he ▸ hx)
      simp [List.mem_cons, hxa]
    rw [List.filter_congr hcong, ih hnd2.2]

theorem length_filter_not {α : Type} (p : α → Bool) (l : List α) :
    (l.filter (fun a => !p a)).length = l.length - (l.filter p).length := by
  induction l with
  | nil => rfl
  | cons a l ih =>
    have hle := List.length_filter_le p l
    cases h : p a
    · simp [List.filter_cons, h, ih]
      omega
    · simp [List.filter_cons, h, ih]

theorem filterProcessed_empty (paths : List String) :
    filterProcessed ∅ paths = paths := by
  unfold filterProcessed
  simp

theorem processBatch_snd (succ : String → Bool) (objCount : String → Nat)
    (files : Finset String) (paths : List String) (t : ℚ) :
    (processBatch succ objCount files paths t).2 =
      files ∪ (((filterProcessed files paths).filter succ).map jsonName).toFinset := by
  unfold processBatch
  by_cases h : filterProcessed files paths = []
  · simp [h]
  · simp [h]

/-- C8 (amended): with resumability requested, `process_batch` returns a
summary whose shape depends on the path taken.  When resume filtering
leaves nothing to do, the summary carries the success/failure/skipped
counts but no elapsed time and no per-item rate.  When items remain, the
summary carries success and failure counts summing to the number of items
processed, the elapsed wall-clock time and the seconds-per-item rate (not
items-per-second), but no skipped count. -/
theorem process_batch_summary_fields (succ : String → Bool)
    (objCount : String → Nat) (files : Finset String) (paths : List String)
    (t : ℚ) :
    (filterProcessed files paths = [] →
      (processBatch succ objCount files paths t).1 =
        ⟨0, 0, 0, some paths.length, none, none⟩) ∧
    (filterProcessed files paths ≠ [] →
      (processBatch succ objCount files paths t).1.success +
          (processBatch succ objCount files paths t).1.failed =
        (filterProcessed files paths).length ∧
      (processBatch succ objCount files paths t).1.skipped = none ∧
      (processBatch succ objCount files paths t).1.elapsed_seconds = some t ∧
      (processBatch succ objCount files paths t).1.per_image_seconds =
        some (t / (filterProcessed files paths).length)) := by
  constructor
  · intro h
    unfold processBatch
    simp [h]
  · intro h
    unfold processBatch
    rw [if_neg h]
    refine ⟨?_, rfl, rfl, ?_⟩
    · have hle := List.length_filter_le succ (filterProcessed files paths)
      have := length_filter_not succ (filterProcessed files paths)
      simp only []
      omega
    · simp [if_neg h]

/-- C8 counterexample: when resume filtering leaves nothing to do, the
returned summary has no elapsed time and no per-item rate (the claim says
every run reports them); when items are processed, it has no skipped
count. -/
theorem process_batch_summary_missing_keys :
    (processBatch (fun _ => true) (fun _ => 0) {jsonName "a.jpg"} ["a.jpg"]
        5).1.elapsed_seconds = none ∧
    (processBatch (fun _ => true) (fun _ => 0) {jsonName "a.jpg"} ["a.jpg"]
        5).1.per_image_seconds = none ∧
    (processBatch (fun _ => true) (fun _ => 0) {jsonName "a.jpg"} ["a.jpg"]
        5).1.skipped = some 1 ∧
    (processBatch (fun _ => true) (fun _ => 0) ∅ ["a.jpg"] 5).1.skipped =
      none ∧
    (processBatch (fun _ => true) (fun _ => 0) ∅ ["a.jpg"] 5).1.elapsed_seconds =
      some 5 := by
  have h1 : filterProcessed {jsonName "a.jpg"} ["a.jpg"] = [] := by
    simp [filterProcessed]
  have h2 : filterProcessed ∅ ["a.jpg"] = ["a.jpg"] := filterProcessed_empty _
  refine ⟨?_, ?_, ?_, ?_, ?_⟩ <;>
    simp [processBatch, h1, h2]

/-- C2: with resume enabled, the batch processor filters out exactly the
items whose expected output record already exists.  If a previous
interrupted run attempted the items of `prev` (a sub-collection of the
batch) and persisted exactly the records of its `N` successful items,
restarting processes exactly `total_items - N` items, and the final output
set equals that of an uninterrupted run (the collaborator being the same
deterministic function in both runs). -/
theorem resume_idempotent (succ : String → Bool) (objCount : String → Nat)
    (paths prev : List String) (t tu : ℚ)
    (hnd : (paths.map jsonName).Nodup) (hprev : List.Sublist prev paths) :
    (filterProcessed (((prev.filter succ).map jsonName).toFinset) paths).length =
      paths.length - (prev.filter succ).length ∧
    (processBatch succ objCount (((prev.filter succ).map jsonName).toFinset)
        paths t).2 =
      (processBatch succ objCount ∅ paths tu).2 := by
  have hndp : paths.Nodup := hnd.of_map
  have hinj := List.inj_on_of_nodup_map hnd
  have hmem : ∀ p ∈ paths,
      jsonName p ∈ ((prev.filter succ).map jsonName).toFinset ↔
        (p ∈ prev ∧ succ p = true) := by
    intro p hp
    simp only [List.mem_toFinset, List.mem_map, List.mem_filter]
    constructor
    · rintro ⟨q, ⟨hq1, hq2⟩, hq3⟩
      have hqp : q = p := hinj (hprev.subset hq1) hp hq3
      exact ⟨hqp ▸ hq1, hqp ▸ hq2⟩
    · intro h
      exact ⟨p, ⟨h.1, h.2⟩, rfl⟩
  have hfp : filterProcessed (((prev.filter succ).map jsonName).toFinset) paths
      = paths.filter (fun p => !(decide (p ∈ prev) && succ p)) := by
    unfold filterProcessed
    refine List.filter_congr ?_
    intro p hp
    by_cases h1 : p ∈ prev <;> by_cases h2 : succ p = true
    · simp [h1, h2, (hmem p hp).mpr ⟨h1, h2⟩]
    · have : jsonName p ∉ ((prev.filter succ).map jsonName).toFinset :=
        fun hc => h2 ((hmem p hp).mp hc).2
      simp [this, h1, h2]
    · have : jsonName p ∉ ((prev.filter succ).map jsonName).toFinset :=
        fun hc => h1 ((hmem p hp).mp hc).1
      simp [this, h1]
    · have : jsonName p ∉ ((prev.filter succ).map jsonName).toFinset :=
        fun hc => h1 ((hmem p hp).mp hc).1
      simp [this, h1]
  have hsplit : paths.filter (fun p => decide (p ∈ prev) && succ p) =
      prev.filter succ := by
    have hcomm : ∀ p ∈ paths,
        (decide (p ∈ prev) && succ p) = (succ p && decide (p ∈ prev)) := by
      intro p _
      rw [Bool.and_comm]
    rw [List.filter_congr hcomm, ← List.filter_filter,
      filter_mem_of_sublist hprev hndp]
  constructor
  · rw [hfp, length_filter_not, hsplit]
  · rw [processBatch_snd, processBatch_snd, filterProcessed_empty, hfp,
      Finset.empty_union]
    ext x
    simp only [Finset.mem_union, List.mem_toFinset, List.mem_map,
      List.mem_filter]
    constructor
    · rintro (⟨q, ⟨hq1, hq2⟩, rfl⟩ | ⟨q, ⟨⟨hq1, _⟩, hq3⟩, rfl⟩)
      · exact ⟨q, ⟨hprev.subset hq1, hq2⟩, rfl⟩
      · exact ⟨q, ⟨hq1, hq3⟩, rfl⟩
    · rintro ⟨q, ⟨hq1, hq2⟩, rfl⟩
      by_cases hqp : q ∈ prev
      · exact Or.inl ⟨q, ⟨hqp, hq2⟩, rfl⟩
      · exact Or.inr ⟨q, ⟨⟨hq1, by simp [hqp]⟩, hq2⟩, rfl⟩

theorem resume_idempotent_witness :
    (filterProcessed (((["a.jpg", "b.jpg"].filter (fun _ => true)).map
        jsonName).toFinset) ["a.jpg", "b.jpg", "c.jpg"]).length =
      (["a.jpg", "b.jpg", "c.jpg"] : List String).length -
        (["a.jpg", "b.jpg"].filter (fun _ => true)).length ∧
    (processBatch (fun _ => true) (fun _ => 1)
        (((["a.jpg", "b.jpg"].filter (fun _ => true)).map jsonName).toFinset)
        ["a.jpg", "b.jpg", "c.jpg"] 5).2 =
      (processBatch (fun _ => true) (fun _ => 1) ∅
        ["a.jpg", "b.jpg", "c.jpg"] 7).2 :=
  resume_idempotent (fun _ => true) (fun _ => 1) ["a.jpg", "b.jpg", "c.jpg"]
    ["a.jpg", "b.jpg"] 5 7 (by decide) (by decide)

/-! ## Engine and task manager, IMAGES mode
(`glm_labeling/dashboard/engine.py`, `glm_labeling/dashboard/task_manager.py`) -/

/-- Phase of the background run of `LabelingEngine._process_images`. -/
inductive EnginePhase where
  | idle
  | submitting
  | collecting
  | finished
deriving DecidableEq, Repr

/-- Joint state of one IMAGES-mode task, its `_running_tasks` entry and the
background run.  `runningFlag` is the engine's `_running_tasks[task.id]`
(`none` when the key is absent); `toSubmit` counts items the submission
loop has not yet reached; `pending` counts submitted, uncollected
futures. -/
structure EngState where
  status : TaskStatus
  runningFlag : Option Bool
  total : Nat
  toSubmit : Nat
  pending : Nat
  completed_frames : Nat
  phase : EnginePhase
deriving DecidableEq, Repr

/-- Atomic actions of the IMAGES-mode lifecycle: the task manager's start
and stop requests, and the individual steps of
`LabelingEngine._process_images` (engine.py lines 243-328). -/
inductive EngAct where
  | startTask
  | submitOne
  | breakSubmit
  | finishSubmit
  | collectOne
  | finishRun
  | stopTask
deriving DecidableEq, Repr

/-- Guard of each action, read off the code: `start_task` rejects tasks in
a running-family state (task_manager.py line 161); the submission loop
checks `_running_tasks.get(task.id, False)` before each dispatch and
breaks when it is not `True` (engine.py lines 255-258); `stop_task` is
always accepted for an existing task (task_manager.py lines 176-184). -/
def engEnabled (s : EngState) : EngAct → Bool
  | .startTask =>
    (decide (s.phase = .idle) || decide (s.phase = .finished)) &&
      !(decide (s.status = .RUNNING) || decide (s.status = .EXTRACTING) ||
        decide (s.status = .VISUALIZING) || decide (s.status = .PACKAGING))
  | .submitOne =>
    decide (s.phase = .submitting) && decide (s.runningFlag = some true) &&
      decide (0 < s.toSubmit)
  | .breakSubmit =>
    decide (s.phase = .submitting) && !(decide (s.runningFlag = some true)) &&
      decide (0 < s.toSubmit)
  | .finishSubmit => decide (s.phase = .submitting) && decide (s.toSubmit = 0)
  | .collectOne => decide (s.phase = .collecting) && decide (0 < s.pending)
  | .finishRun => decide (s.phase = .collecting) && decide (s.pending = 0)
  | .stopTask => true

/-- Effect of each action, read off the code.  In particular `finishRun`
models engine.py lines 313-318: after the `as_completed` loop drains —
whether or not the submission loop was cut short by a stop request — the
status is set to COMPLETED unconditionally and the running flag popped. -/
def engApply (s : EngState) : EngAct → EngState
  | .startTask =>
    { s with status := .RUNNING, runningFlag := some true, phase := .submitting }
  | .submitOne => { s with toSubmit := s.toSubmit - 1, pending := s.pending + 1 }
  | .breakSubmit => { s with phase := .collecting }
  | .finishSubmit => { s with phase := .collecting }
  | .collectOne =>
    { s with pending := s.pending - 1,
             completed_frames := s.completed_frames + 1 }
  | .finishRun =>
    { s with status := .COMPLETED, runningFlag := none, phase := .finished }
  | .stopTask => { s with runningFlag := some false, status := .PAUSED }

/-- Run a sequence of actions from a state. -/
def engRun (s : EngState) (acts : List EngAct) : EngState :=
  acts.foldl engApply s

/-- An action sequence is a valid interleaving when every action is
enabled in the state where it fires. -/
def engValid (s : EngState) : List EngAct → Bool
  | [] => true
  | a :: rest => engEnabled s a && engValid (engApply s a) rest

/-- Freshly created IMAGES task with `n` items (task_manager.create_task:
status PENDING, no running flag, nothing dispatched). -/
def engInit (n : Nat) : EngState := ⟨.PENDING, none, n, n, 0, 0, .idle⟩

/-- Start, dispatch one of two items, receive a stop request, break the
submission loop, collect the one dispatched item, reach the end of
`_process_images`. -/
def stopTrace : List EngAct :=
  [.startTask, .submitOne, .stopTask, .breakSubmit, .collectOne, .finishRun]

/-- C1 (code bug evidence): a valid interleaving in which a stop request
sets the task PAUSED, no further start ever occurs, and the engine
nevertheless ends the run by setting the status to COMPLETED with only 1
of 2 items processed.  So PAUSED is not sticky (PAUSED moves to COMPLETED
without an explicit resume) and RUNNING reaches COMPLETED without all
items done, contradicting the §4.3 state machine. -/
theorem stop_request_still_completes :
    engValid (engInit 2) stopTrace = true ∧
    (engRun (engInit 2) (stopTrace.take 3)).status = .PAUSED ∧
    (stopTrace.drop 3).all (fun a => !(a == EngAct.startTask)) = true ∧
    (engRun (engInit 2) stopTrace).status = .COMPLETED ∧
    (engRun (engInit 2) stopTrace).completed_frames = 1 ∧
    (engRun (engInit 2) stopTrace).total = 2 := by decide

/-- Event types of the event bus (`glm_labeling/dashboard/events.py`
lines 16-37). -/
inductive EvType where
  | task_created
  | task_started
  | task_progress
  | task_completed
  | task_error
  | stage_changed
  | extract_progress
  | extract_completed
  | visualize_progress
  | visualize_completed
  | package_completed
  | frame_started
  | frame_completed
  | frame_error
  | issue_detected
  | stats_update
deriving DecidableEq, Repr

/-- A published event, reduced to the parts the claims inspect: its type,
the `stage` key of its data when present, and whether its data carries a
human-readable `message` or `error` text. -/
structure Ev where
  ty : EvType
  stage : Option String := none
  hasMessage : Bool := false
deriving DecidableEq, Repr

/-- One step of an engine method: a status assignment, an event publish,
or some other side effect (directory creation, file writes, ...). -/
inductive PipeStep where
  | setStatus (st : TaskStatus)
  | publish (e : Ev)
  | effect
deriving DecidableEq, Repr

/-- The `stage_changed` / `task_*` event family of the claim. -/
def isStatusEvent (e : Ev) : Bool :=
  match e.ty with
  | .task_created | .task_started | .task_progress | .task_completed
  | .task_error | .stage_changed => true
  | _ => false

/-- A step that is neither a status assignment nor a publish of a
`stage_changed` / `task_*` event. -/
def uncountedStep : PipeStep → Bool
  | .setStatus _ => false
  | .publish e => !isStatusEvent e
  | .effect => true

/-- Number of `stage_changed` / `task_*` events published after a status
assignment, before the next status assignment. -/
def countedLeading : List PipeStep → Nat
  | [] => 0
  | .setStatus _ :: _ => 0
  | .publish e :: rest => (if isStatusEvent e then 1 else 0) + countedLeading rest
  | .effect :: rest => countedLeading rest

/-- Every status transition of a step sequence, paired with the number of
`stage_changed` / `task_*` events published for it (those following the
assignment, up to the next assignment). -/
def transitions : List PipeStep → List (TaskStatus × Nat)
  | [] => []
  | .setStatus st :: rest => (st, countedLeading rest) :: transitions rest
  | _ :: rest => transitions rest

/-- A `stage_changed` publish carries the stage key and a human-readable
message in its data. -/
def stageChangedCarriesMessage : PipeStep → Bool
  | .publish e => !(e.ty == .stage_changed) || (e.stage.isSome && e.hasMessage)
  | _ => true

/-- Success path of `LabelingEngine._process_video_pipeline` (engine.py
lines 120-233), with the inner `_process_images` run inlined (its status
assignment at line 314 and `task_completed` publish at line 320 included).
`extractEvs` stands for the `extract_progress` publishes of the extraction
callback, `labelEvs` for the per-item `frame_completed` / `frame_error` /
`stats_update` / `issue_detected` publishes of the labeling loop. -/
def videoPipelineOk (extractEvs labelEvs : List PipeStep) : List PipeStep :=
  .setStatus .EXTRACTING ::
  .publish ⟨.stage_changed, some "extracting", true⟩ ::
  (extractEvs ++
    (.effect ::
     .publish ⟨.extract_completed, none, false⟩ ::
     .setStatus .RUNNING ::
     .publish ⟨.stage_changed, some "labeling", true⟩ ::
     .effect ::
     (labelEvs ++
       [.setStatus .COMPLETED,
        .publish ⟨.task_completed, none, false⟩,
        .setStatus .VISUALIZING,
        .publish ⟨.stage_changed, some "visualizing", true⟩,
        .setStatus .PACKAGING,
        .publish ⟨.stage_changed, some "packaging", true⟩,
        .effect,
        .publish ⟨.package_completed, none, false⟩,
        .setStatus .COMPLETED,
        .publish ⟨.task_completed, none, false⟩])))

/-- Failure path of the pipeline: extraction produces zero frames, the
raise at engine.py line 154 lands in the handler at lines 235-241. -/
def videoPipelineExtractFail (extractEvs : List PipeStep) : List PipeStep :=
  .setStatus .EXTRACTING ::
  .publish ⟨.stage_changed, some "extracting", true⟩ ::
  (extractEvs ++
    [.effect,
     .setStatus .FAILED,
     .publish ⟨.task_error, none, true⟩])

/-- Steps of `TaskManager.stop_task` (task_manager.py lines 176-184): the
stop flag is set and the status assigned PAUSED; nothing is published. -/
def stopTaskSteps : List PipeStep := [.setStatus .PAUSED]

theorem countedLeading_append_uncounted (l : List PipeStep)
    (h : l.all uncountedStep = true) (r : List PipeStep) :
    countedLeading (l ++ r) = countedLeading r := by
  induction l with
  | nil => rfl
  | cons a l ih =>
    rw [List.all_cons, Bool.and_eq_true] at h
    cases a with
    | setStatus st => simp [uncountedStep] at h
    | publish e =>
      have he : isStatusEvent e = false := by
        have := h.1
        rwa [uncountedStep, Bool.not_eq_true'] at this
      simp [countedLeading, he, ih h.2]
    | effect => simp [countedLeading, ih h.2]

theorem transitions_append_uncounted (l : List PipeStep)
    (h : l.all uncountedStep = true) (r : List PipeStep) :
    transitions (l ++ r) = transitions r := by
  induction l with
  | nil => rfl
  | cons a l ih =>
    rw [List.all_cons, Bool.and_eq_true] at h
    cases a with
    | setStatus st => simp [uncountedStep] at h
    | publish e => simp [transitions, ih h.2]
    | effect => simp [transitions, ih h.2]

theorem uncounted_carries_message (s : PipeStep)
    (h : uncountedStep s = true) : stageChangedCarriesMessage s = true := by
  cases s with
  | setStatus st => simp [uncountedStep] at h
  | publish e =>
    rw [uncountedStep, Bool.not_eq_true'] at h
    have hne : ¬ e.ty = .stage_changed := by
      intro hc
      have ht : isStatusEvent e = true := by simp [isStatusEvent, hc]
      rw [ht] at h
      cases h
    simp [stageChangedCarriesMessage, hne]
  | effect => rfl

/-- C7 (amended): every status transition performed by the video pipeline
— on the success path and on the extraction-failure path — publishes
exactly one `stage_changed` or `task_*` event, and every `stage_changed`
event carries the stage and a human-readable message.  The transition to
PAUSED performed by `stop_task` publishes no event (see the
counterexample). -/
theorem video_pipeline_one_event_per_transition
    (extractEvs labelEvs : List PipeStep)
    (he : extractEvs.all uncountedStep = true)
    (hl : labelEvs.all uncountedStep = true) :
    (transitions (videoPipelineOk extractEvs labelEvs)).all
        (fun pr => pr.2 == 1) = true ∧
    (transitions (videoPipelineExtractFail extractEvs)).all
        (fun pr => pr.2 == 1) = true ∧
    (videoPipelineOk extractEvs labelEvs).all stageChangedCarriesMessage
      = true := by
  refine ⟨?_, ?_, ?_⟩
  · have h1 : transitions (videoPipelineOk extractEvs labelEvs) =
        [(.EXTRACTING, 1), (.RUNNING, 1), (.COMPLETED, 1), (.VISUALIZING, 1),
          (.PACKAGING, 1), (.COMPLETED, 1)] := by
      simp only [videoPipelineOk, transitions, countedLeading,
        transitions_append_uncounted extractEvs he,
        transitions_append_uncounted labelEvs hl,
        countedLeading_append_uncounted extractEvs he,
        countedLeading_append_uncounted labelEvs hl]
      norm_num [isStatusEvent]
    rw [h1]
    rfl
  · have h2 : transitions (videoPipelineExtractFail extractEvs) =
        [(.EXTRACTING, 1), (.FAILED, 1)] := by
      simp only [videoPipelineExtractFail, transitions, countedLeading,
        transitions_append_uncounted extractEvs he,
        countedLeading_append_uncounted extractEvs he]
      norm_num [isStatusEvent]
    rw [h2]
    rfl
  · have hall : ∀ l : List PipeStep, l.all uncountedStep = true →
        l.all stageChangedCarriesMessage = true := by
      intro l h
      refine List.all_eq_true.mpr ?_
      intro s hs
      exact uncounted_carries_message s (List.all_eq_true.mp h s hs)
    have h1 := hall extractEvs he
    have h2 := hall labelEvs hl
    simp [videoPipelineOk, List.all_cons, List.all_append, h1, h2,
      stageChangedCarriesMessage]

theorem video_pipeline_one_event_witness :
    (transitions (videoPipelineOk
        [.publish ⟨.extract_progress, none, false⟩]
        [.publish ⟨.frame_completed, none, false⟩,
         .publish ⟨.stats_update, none, false⟩])).all
      (fun pr => pr.2 == 1) = true :=
  (video_pipeline_one_event_per_transition
    [.publish ⟨.extract_progress, none, false⟩]
    [.publish ⟨.frame_completed, none, false⟩,
     .publish ⟨.stats_update, none, false⟩]
    (by decide) (by decide)).1

/-- C7 counterexample: the transition to PAUSED on a stop request
publishes zero `stage_changed` / `task_*` events, not exactly one. -/
theorem stop_task_publishes_no_event :
    transitions stopTaskSteps = [(TaskStatus.PAUSED, 0)] ∧
    ¬ (transitions stopTaskSteps).all (fun pr => pr.2 == 1) = true := by
  decide

/-! ## Bounded-concurrency async processor
(`src/scripts/video_to_dataset_async.py`) -/

/-- Permit and call actions a `detect_and_save` task performs.
`AsyncDetector.detect` (lines 193-201) brackets its remote call between an
acquire and a release of `self.semaphore`; `classify_sign_rag` (lines
280-401), invoked by `detect_and_save` (lines 537-569) after `detect`
returns, posts its refinement call with no permit operations. -/
inductive PCall where
  | acq
  | rel
  | startDet
  | endDet
  | startCls
  | endCls
deriving DecidableEq, Repr

/-- Program of one `detect_and_save` task: the permit-bracketed primary
detection call, then — when the item carries a sign needing refinement —
the ungated classification call. -/
def itemProgram (rag : Bool) : List PCall :=
  [.acq, .startDet, .endDet, .rel] ++
    (if rag then [.startCls, .endCls] else [])

/-- A task holds the permit when its remaining program has passed `acq`
but not yet `rel`. -/
def holdsPermit (rem : List PCall) : Bool :=
  rem.contains .rel && !(rem.contains .acq)

/-- A task's primary detection call is in flight. -/
def detInFlight (rem : List PCall) : Bool :=
  rem.contains .endDet && !(rem.contains .startDet)

/-- A task's refinement (classification) call is in flight. -/
def clsInFlight (rem : List PCall) : Bool :=
  rem.contains .endCls && !(rem.contains .startCls)

/-- Number of permits held in a system state; the state is one remaining
program per task. -/
def heldCount (s : List (List PCall)) : Nat := s.countP holdsPermit

/-- Number of collaborator calls (primary or refinement) in flight. -/
def callsInFlight (s : List (List PCall)) : Nat :=
  s.countP detInFlight + s.countP clsInFlight

/-- Cooperative interleaving semantics: one step runs the next action of
one task; an `acq` step is enabled only while fewer than `P` permits are
held (the blocking acquire of `asyncio.Semaphore(P)`). -/
inductive AsyncStep (P : Nat) :
    List (List PCall) → List (List PCall) → Prop where
  | mk (i : Nat) (a : PCall) (rest : List PCall) (s : List (List PCall))
      (hget : s.get? i = some (a :: rest))
      (hacq : a = .acq → heldCount s < P) :
      AsyncStep P s (s.set i rest)

/-- States reachable from the start of a batch whose tasks are described
by `rags` (whether each item takes the refinement sub-call). -/
def AsyncReachable (P : Nat) (rags : List Bool)
    (s : List (List PCall)) : Prop :=
  Relation.ReflTransGen (AsyncStep P) (rags.map itemProgram) s

/-- Permit count of a single task's remaining program. -/
def hpN (rem : List PCall) : Nat := if holdsPermit rem then 1 else 0

/-- One consumed action never increases a task's permit contribution,
except `acq` which raises it by at most one. -/
def stepPermitOk : List PCall → Bool
  | [] => true
  | x :: rest => (x == PCall.acq) || decide (hpN rest ≤ hpN (x :: rest))

/-- A task whose detection call is in flight holds the permit. -/
def detImpliesPermit (rem : List PCall) : Bool :=
  !(detInFlight rem) || holdsPermit rem

theorem stepPermitOk_tails :
    ∀ rag : Bool, ((itemProgram rag).tails).all stepPermitOk = true := by
  decide

theorem detImpliesPermit_tails :
    ∀ rag : Bool, ((itemProgram rag).tails).all detImpliesPermit = true := by
  decide

theorem forall₂_mem_left {R : List PCall → Bool → Prop}
    {s : List (List PCall)} {rags : List Bool}
    (h : List.Forall₂ R s rags) :
    ∀ m ∈ s, ∃ rag ∈ rags, R m rag := by
  induction h with
  | nil => intro m hm; cases hm
  | cons hr _ ih =>
    intro m hm
    rcases List.mem_cons.mp hm with rfl | hm'
    · exact ⟨_, List.mem_cons_self _ _, hr⟩
    · rcases ih m hm' with ⟨rag, hrag, hR⟩
      exact ⟨rag, List.mem_cons_of_mem _ hrag, hR⟩

theorem forall₂_tail_step {R : List PCall → Bool → Prop}
    (hstep : ∀ x rem rag, R (x :: rem) rag → R rem rag) :
    ∀ (pre : List (List PCall)) (x : PCall) (rest : List PCall)
      (post : List (List PCall)) (rags : List Bool),
      List.Forall₂ R (pre ++ (x :: rest) :: post) rags →
      List.Forall₂ R (pre ++ rest :: post) rags := by
  intro pre
  induction pre with
  | nil =>
    intro x rest post rags h
    cases h with
    | cons hr ht => exact .cons (hstep _ _ _ hr) ht
  | cons p pre ih =>
    intro x rest post rags h
    cases h with
    | cons hr ht => exact .cons hr (ih _ _ _ _ ht)

theorem isSuffix_tail {x : PCall} {rem prog : List PCall}
    (h : (x :: rem).IsSuffix prog) : rem.IsSuffix prog := by
  rcases h with ⟨t, rfl⟩
  exact ⟨t ++ [x], by simp⟩

theorem asyncStep_decomp {P : Nat} {s s' : List (List PCall)}
    (h : AsyncStep P s s') :
    ∃ pre x rest post, s = pre ++ (x :: rest) :: post ∧
      s' = pre ++ rest :: post ∧ (x = .acq → heldCount s < P) := by
  rcases h with ⟨i, a, rest, s, hget, hacq⟩
  have hi : i < s.length := by
    rcases List.get?_eq_some.mp hget with ⟨h, _⟩
    exact h
  have hx : s[i] = a :: rest := by
    have h' := hget
    rw [List.get?_eq_getElem?] at h'
    rcases List.getElem?_eq_some.mp h' with ⟨_, he⟩
    exact he
  refine ⟨s.take i, a, rest, s.drop (i + 1), ?_, ?_, hacq⟩
  · conv_lhs => rw [← List.take_append_drop i s]
    rw [List.drop_eq_getElem_cons hi, hx]
  · exact List.set_eq_take_cons_drop rest hi

/-- Invariant: each task's remaining program is a suffix of its full
program. -/
def SuffixInv (rags : List Bool) (s : List (List PCall)) : Prop :=
  List.Forall₂ (fun rem rag => rem.IsSuffix (itemProgram rag)) s rags

theorem heldCount_decomp (pre : List (List PCall)) (m : List PCall)
    (post : List (List PCall)) :
    heldCount (pre ++ m :: post) = (heldCount pre + heldCount post) + hpN m := by
  by_cases h : holdsPermit m = true
  · simp only [heldCount, hpN, List.countP_append, List.countP_cons, h,
      if_true]
    omega
  · simp only [heldCount, hpN, List.countP_append, List.countP_cons, h,
      if_false]
    omega

theorem countP_le_of_imp {α : Type} (p q : α → Bool) (l : List α)
    (h : ∀ a ∈ l, p a = true → q a = true) : l.countP p ≤ l.countP q := by
  induction l with
  | nil => exact Nat.le_refl 0
  | cons a l ih =>
    rw [List.countP_cons, List.countP_cons]
    have hih := ih (fun x hx => h x (List.mem_cons_of_mem _ hx))
    by_cases hp : p a = true
    · rw [if_pos hp, if_pos (h a (List.mem_cons_self _ _) hp)]
      omega
    · rw [if_neg hp]
      split <;> omega

theorem asyncInv (P : Nat) (rags : List Bool) (s : List (List PCall))
    (h : AsyncReachable P rags s) :
    SuffixInv rags s ∧ heldCount s ≤ P := by
  induction h with
  | refl =>
    constructor
    · rw [SuffixInv, List.forall₂_map_left_iff]
      exact List.forall₂_same.mpr (fun rag _ => List.suffix_refl _)
    · have hz : ∀ m ∈ rags.map itemProgram, ¬ holdsPermit m = true := by
        intro m hm
        rcases List.mem_map.mp hm with ⟨rag, _, rfl⟩
        cases rag
        · decide
        · decide
      rw [heldCount, List.countP_eq_zero.mpr hz]
      exact Nat.zero_le P
  | tail _ hstep ih =>
    obtain ⟨hsuf, hheld⟩ := ih
    obtain ⟨pre, x, rest, post, hb, hc, hacq⟩ := asyncStep_decomp hstep
    subst hb
    subst hc
    constructor
    · exact forall₂_tail_step (fun x rem rag hsx => isSuffix_tail hsx)
        pre x rest post rags hsuf
    · rcases forall₂_mem_left hsuf (x :: rest) (by simp) with ⟨rag, _, hsm⟩
      have hd1 := heldCount_decomp pre (x :: rest) post
      have hd2 := heldCount_decomp pre rest post
      by_cases hx : x = .acq
      · have hlt := hacq hx
        have hle1 : hpN rest ≤ 1 := by
          rw [hpN]
          split
          · exact Nat.le_refl 1
          · exact Nat.zero_le 1
        omega
      · have hok := List.all_eq_true.mp (stepPermitOk_tails rag) (x :: rest)
          ((List.mem_tails _ _).mpr hsm)
        rw [stepPermitOk] at hok
        have hbe : (x == PCall.acq) = false := beq_eq_false_iff_ne.mpr hx
        rw [hbe, Bool.false_or, decide_eq_true_eq] at hok
        omega

/-- C3 (amended): in the bounded-concurrency async processor with permit
size `P`, at no reachable point are more than `P` primary detection calls
in flight — `AsyncDetector.detect` brackets its call with the semaphore.
The two-stage refinement sub-call, however, does not acquire the permit
and is not counted against the budget (see the counterexample, where the
total number of in-flight collaborator calls exceeds `P`). -/
theorem detect_calls_bounded (P : Nat) (rags : List Bool)
    (s : List (List PCall)) (h : AsyncReachable P rags s) :
    s.countP detInFlight ≤ P := by
  obtain ⟨hsuf, hheld⟩ := asyncInv P rags s h
  have hpoint : ∀ m ∈ s, detInFlight m = true → holdsPermit m = true := by
    intro m hm hdet
    rcases forall₂_mem_left hsuf m hm with ⟨rag, _, hsm⟩
    have hok := List.all_eq_true.mp (detImpliesPermit_tails rag) m
      ((List.mem_tails _ _).mpr hsm)
    rw [detImpliesPermit, hdet] at hok
    simpa using hok
  exact Nat.le_trans (countP_le_of_imp detInFlight holdsPermit s hpoint) hheld

theorem detect_calls_bounded_witness :
    (([true] : List Bool).map itemProgram).countP detInFlight ≤ 3 :=
  detect_calls_bounded 3 [true] (([true] : List Bool).map itemProgram)
    Relation.ReflTransGen.refl

/-- C3 counterexample: with permit size 1, a batch of two items (the
first taking the refinement sub-call) reaches a state in which the first
task's classification call and the second task's detection call are both
in flight: 2 collaborator calls, exceeding the budget of 1.  The
refinement call acquired no permit. -/
theorem refinement_call_not_gated :
    AsyncReachable 1 [true, false] [[.endCls], [.endDet, .rel]] ∧
    callsInFlight [[.endCls], [.endDet, .rel]] = 2 ∧
    ¬ callsInFlight [[.endCls], [.endDet, .rel]] ≤ 1 := by
  refine ⟨?_, by decide, by decide⟩
  have h1 : AsyncStep 1 [itemProgram true, itemProgram false]
      [[.startDet, .endDet, .rel, .startCls, .endCls], itemProgram false] :=
    AsyncStep.mk 0 .acq [.startDet, .endDet, .rel, .startCls, .endCls] _
      rfl (fun _ => by decide)
  have h2 : AsyncStep 1
      [[.startDet, .endDet, .rel, .startCls, .endCls], itemProgram false]
      [[.endDet, .rel, .startCls, .endCls], itemProgram false] :=
    AsyncStep.mk 0 .startDet [.endDet, .rel, .startCls, .endCls] _
      rfl (fun h => nomatch h)
  have h3 : AsyncStep 1
      [[.endDet, .rel, .startCls, .endCls], itemProgram false]
      [[.rel, .startCls, .endCls], itemProgram false] :=
    AsyncStep.mk 0 .endDet [.rel, .startCls, .endCls] _
      rfl (fun h => nomatch h)
  have h4 : AsyncStep 1
      [[.rel, .startCls, .endCls], itemProgram false]
      [[.startCls, .endCls], itemProgram false] :=
    AsyncStep.mk 0 .rel [.startCls, .endCls] _ rfl (fun h => nomatch h)
  have h5 : AsyncStep 1
      [[.startCls, .endCls], itemProgram false]
      [[.endCls], itemProgram false] :=
    AsyncStep.mk 0 .startCls [.endCls] _ rfl (fun h => nomatch h)
  have h6 : AsyncStep 1
      [[.endCls], itemProgram false]
      [[.endCls], [.startDet, .endDet, .rel]] :=
    AsyncStep.mk 1 .acq [.startDet, .endDet, .rel] _ rfl (fun _ => by decide)
  have h7 : AsyncStep 1
      [[.endCls], [.startDet, .endDet, .rel]]
      [[.endCls], [.endDet, .rel]] :=
    AsyncStep.mk 1 .startDet [.endDet, .rel] _ rfl (fun h => nomatch h)
  exact Relation.ReflTransGen.head h1 (Relation.ReflTransGen.head h2
    (Relation.ReflTransGen.head h3 (Relation.ReflTransGen.head h4
      (Relation.ReflTransGen.head h5 (Relation.ReflTransGen.head h6
        (Relation.ReflTransGen.head h7 Relation.ReflTransGen.refl))))))

theorem process_batch_summary_fields_witness :
    (processBatch (fun _ => true) (fun _ => 2) ∅ ["b.jpg"] 3).1.success +
        (processBatch (fun _ => true) (fun _ => 2) ∅ ["b.jpg"] 3).1.failed =
      (filterProcessed ∅ ["b.jpg"]).length ∧
    (processBatch (fun _ => true) (fun _ => 2) ∅ ["b.jpg"] 3).1.skipped = none ∧
    (processBatch (fun _ => true) (fun _ => 2) ∅ ["b.jpg"] 3).1.elapsed_seconds =
      some 3 ∧
    (processBatch (fun _ => true) (fun _ => 2) ∅ ["b.jpg"] 3).1.per_image_seconds =
      some ((3 : ℚ) / ((filterProcessed ∅ ["b.jpg"]).length : ℚ)) :=
  (process_batch_summary_fields (fun _ => true) (fun _ => 2) ∅ ["b.jpg"] 3).2
    (by rw [filterProcessed_empty]; exact List.cons_ne_nil _ _)
